import Mathlib

/-!
Verification of the Sudoku constraint-propagation solver in `main.py`.

The 9×9 numpy array `Puzzle.__array` is embedded as a function
`Fin 9 → Fin 9 → Int`; the mutating rule methods become state-passing
functions `Grid → Grid × Bool` (the `Bool` is the Python return value
`digit_found`), and `find_naked_singles`, which can raise `RuntimeError`,
returns `Except Grid (Grid × Bool)` whose `error` value carries the grid
at the moment the exception is raised.
-/

namespace Sudoku

/-- The 9×9 grid (`Puzzle.__array` in `main.py`): 0 = empty cell,
-1 = marker written on failure, 1..9 = placed digits. -/
abbrev Grid := Fin 9 → Fin 9 → Int

/-- Python `range(1, 10)`: the candidate digits. -/
def digits19 : List Int := [1, 2, 3, 4, 5, 6, 7, 8, 9]

/-- `Row.contents`: the slice `array[index, :]`. -/
def rowContents (g : Grid) (r : Fin 9) : List Int :=
  (List.finRange 9).map (fun c => g r c)

/-- `Column.contents`: the slice `array[:, index]`. -/
def colContents (g : Grid) (c : Fin 9) : List Int :=
  (List.finRange 9).map (fun r => g r c)

/-- The nine coordinates of box `b`: `box_row = 3 * floor(index / 3)`,
`box_col = 3 * (index % 3)`, covering the 3×3 block from there
(`Box.contents` in `main.py`). -/
def boxCells (b : Fin 9) : List (Fin 9 × Fin 9) :=
  (List.finRange 3).flatMap (fun i => (List.finRange 3).map (fun j =>
    (⟨3 * (b.val / 3) + i.val, by have hb := b.isLt; have hi := i.isLt; omega⟩,
     ⟨3 * (b.val % 3) + j.val, by have hb := b.isLt; have hj := j.isLt; omega⟩)))

/-- `Box.contents`: the 3×3 slice of the array covered by box `b`. -/
def boxContents (g : Grid) (b : Fin 9) : List Int :=
  (boxCells b).map (fun p => g p.1 p.2)

/-- `Row.has(digit)`: `digit in contents()`. -/
def rowHas (g : Grid) (r : Fin 9) (d : Int) : Bool :=
  decide (d ∈ rowContents g r)

/-- `Column.has(digit)`. -/
def colHas (g : Grid) (c : Fin 9) (d : Int) : Bool :=
  decide (d ∈ colContents g c)

/-- `Box.has(digit)`. -/
def boxHas (g : Grid) (b : Fin 9) (d : Int) : Bool :=
  decide (d ∈ boxContents g b)

/-- `Puzzle.get_box(row, col) = 3 * floor(row/3) + floor(col/3)`. -/
def get_box (row col : Fin 9) : Fin 9 :=
  ⟨3 * (row.val / 3) + col.val / 3, by have h1 := row.isLt; have h2 := col.isLt; omega⟩

/-- `Puzzle.digit_allowed_at(value, row, col)`. -/
def digit_allowed_at (g : Grid) (value : Int) (row col : Fin 9) : Bool :=
  if rowHas g row value then false
  else if colHas g col value then false
  else ! boxHas g (get_box row col) value

/-- A single assignment `array[r, c] = v`. -/
def write (g : Grid) (r c : Fin 9) (v : Int) : Grid :=
  fun r' c' => if r' = r ∧ c' = c then v else g r' c'

/-- `Puzzle.solution_is_valid()`: every row, column and box has every
digit 1..9 (the Python loop returns `False` as soon as one `has` fails,
which is the same as this conjunction). -/
def solution_is_valid (g : Grid) : Bool :=
  (List.finRange 9).all (fun index =>
    digits19.all (fun digit =>
      rowHas g index digit && colHas g index digit && boxHas g index digit))

/-! ### The naked-singles rule -/

/-- The `valid_digits` accumulation loop inside `find_naked_singles`:
append each digit allowed at `(r, c)` and stop as soon as the list holds
two entries (`if len(valid_digits) > 1: break`). -/
def collectGo (g : Grid) (r c : Fin 9) : List Int → List Int → List Int
  | [], acc => acc
  | d :: rest, acc =>
    if digit_allowed_at g d r c then
      if (acc ++ [d]).length > 1 then acc ++ [d] else collectGo g r c rest (acc ++ [d])
    else collectGo g r c rest acc

/-- The `valid_digits` list computed for cell `(r, c)`. -/
def collectValid (g : Grid) (r c : Fin 9) : List Int :=
  collectGo g r c digits19 []

/-- The body of `find_naked_singles` for one cell: skip non-empty cells;
place the digit when `len(valid_digits) == 1`; write -1 and raise when
it is empty; otherwise leave the cell alone. -/
def nsCell (g : Grid) (r c : Fin 9) : Except Grid (Grid × Bool) :=
  if g r c = 0 then
    match collectValid g r c with
    | [d] => .ok (write g r c d, true)
    | [] => .error (write g r c (-1))
    | _ => .ok (g, false)
  else .ok (g, false)

/-- The row-major scan of `find_naked_singles`, parameterised by the
per-cell body so the code's scan and the spec-worded scan share it. -/
def nsScan (cell : Grid → Fin 9 → Fin 9 → Except Grid (Grid × Bool)) :
    List (Fin 9 × Fin 9) → Grid → Bool → Except Grid (Grid × Bool)
  | [], g, found => .ok (g, found)
  | p :: rest, g, found =>
    match cell g p.1 p.2 with
    | .error ge => .error ge
    | .ok (g', b) => nsScan cell rest g' (found || b)

/-- All 81 cells in row-major order (`for row ...: for col ...`). -/
def cellsInOrder : List (Fin 9 × Fin 9) :=
  (List.finRange 9).flatMap (fun r => (List.finRange 9).map (fun c => (r, c)))

/-- `Puzzle.find_naked_singles`. -/
def find_naked_singles (g : Grid) : Except Grid (Grid × Bool) :=
  nsScan nsCell cellsInOrder g false

/-- Modelled from the spec's wording of the naked-single rule ("compute
the set of digits 1–9 not already present in that cell's row, column, or
box; if exactly one digit is allowed, place it; if zero digits are
allowed, mark the cell -1 and signal failure; if more than one digit is
allowed, leave the cell untouched"): the per-cell body using the full
filtered candidate list instead of the source's early-exit accumulator. -/
def nsSpecCell (g : Grid) (r c : Fin 9) : Except Grid (Grid × Bool) :=
  if g r c = 0 then
    match digits19.filter (fun d => digit_allowed_at g d r c) with
    | [d] => .ok (write g r c d, true)
    | [] => .error (write g r c (-1))
    | _ => .ok (g, false)
  else .ok (g, false)

/-- The naked-single rule as the spec words it. -/
def find_naked_singles_spec (g : Grid) : Except Grid (Grid × Bool) :=
  nsScan nsSpecCell cellsInOrder g false

/-! ### The three forced-digit rules -/

/-- The shared shape of the three forced-digit rules: a fold of a
per-(area, digit) step, accumulating the `digit_found` flag. -/
def ruleGo {α : Type} (step : Grid → α → Grid × Bool) :
    List α → Grid → Bool → Grid × Bool
  | [], g, found => (g, found)
  | p :: rest, g, found =>
    match step g p with
    | (g', b) => ruleGo step rest g' (found || b)

/-- The body of `find_forced_digits_in_rows` for one `(row, digit)`
pair: collect the empty cells of the row lying in boxes that lack the
digit, drop those whose column has the digit, and place the digit when
exactly one candidate column remains. -/
def frdRowDigit (g : Grid) (row : Fin 9) (digit : Int) : Grid × Bool :=
  if rowHas g row digit then (g, false)
  else
    let box_row := 3 * (row.val / 3)
    let open_columns : List (Fin 9) :=
      (List.finRange 3).flatMap (fun box =>
        if boxHas g ⟨box.val + box_row, by have h1 := row.isLt; have h2 := box.isLt; omega⟩ digit
        then []
        else (List.finRange 3).filterMap (fun num =>
          let col : Fin 9 := ⟨num.val + box.val * 3, by have h1 := num.isLt; have h2 := box.isLt; omega⟩
          if g row col = 0 then some col else none))
    let candidate_cells := open_columns.filter (fun col => ! colHas g col digit)
    match candidate_cells with
    | [col] => (write g row col digit, true)
    | _ => (g, false)

/-- The body of `find_forced_digits_in_columns` for one `(col, digit)`
pair (the transpose of `frdRowDigit`; the Python loop runs over
`box in [0, 3, 6]`, embedded as `3 * box.val`). -/
def frdColDigit (g : Grid) (col : Fin 9) (digit : Int) : Grid × Bool :=
  if colHas g col digit then (g, false)
  else
    let box_col := col.val / 3
    let open_rows : List (Fin 9) :=
      (List.finRange 3).flatMap (fun box =>
        if boxHas g ⟨3 * box.val + box_col, by have h1 := col.isLt; have h2 := box.isLt; omega⟩ digit
        then []
        else (List.finRange 3).filterMap (fun num =>
          let row : Fin 9 := ⟨num.val + 3 * box.val, by have h1 := num.isLt; have h2 := box.isLt; omega⟩
          if g row col = 0 then some row else none))
    let candidate_cells := open_rows.filter (fun row => ! rowHas g row digit)
    match candidate_cells with
    | [row] => (write g row col digit, true)
    | _ => (g, false)

/-- The body of `find_forced_digits_in_boxes` for one `(box, digit)`
pair.  Note the source builds `candidate_cells` as the full product of
the open rows and open columns of the box band, with no check that the
candidate cell is empty. -/
def frdBoxDigit (g : Grid) (box : Fin 9) (digit : Int) : Grid × Bool :=
  if boxHas g box digit then (g, false)
  else
    let open_rows : List (Fin 9) :=
      (List.finRange 3).filterMap (fun index =>
        let row : Fin 9 := ⟨3 * (box.val / 3) + index.val, by have h1 := box.isLt; have h2 := index.isLt; omega⟩
        if rowHas g row digit then none else some row)
    let open_cols : List (Fin 9) :=
      (List.finRange 3).filterMap (fun index =>
        let col : Fin 9 := ⟨3 * (box.val % 3) + index.val, by have h1 := box.isLt; have h2 := index.isLt; omega⟩
        if colHas g col digit then none else some col)
    let candidate_cells : List (Fin 9 × Fin 9) :=
      open_rows.flatMap (fun row => open_cols.map (fun col => (row, col)))
    match candidate_cells with
    | [p] => (write g p.1 p.2 digit, true)
    | _ => (g, false)

/-- The `(row, digit)` pairs scanned by `find_forced_digits_in_rows`. -/
def areaDigitPairs : List (Fin 9 × Int) :=
  (List.finRange 9).flatMap (fun a => digits19.map (fun d => (a, d)))

/-- `Puzzle.find_forced_digits_in_rows`. -/
def find_forced_digits_in_rows (g : Grid) : Grid × Bool :=
  ruleGo (fun g p => frdRowDigit g p.1 p.2) areaDigitPairs g false

/-- `Puzzle.find_forced_digits_in_columns`. -/
def find_forced_digits_in_columns (g : Grid) : Grid × Bool :=
  ruleGo (fun g p => frdColDigit g p.1 p.2) areaDigitPairs g false

/-- `Puzzle.find_forced_digits_in_boxes`. -/
def find_forced_digits_in_boxes (g : Grid) : Grid × Bool :=
  ruleGo (fun g p => frdBoxDigit g p.1 p.2) areaDigitPairs g false

/-! ### The sequential driver -/

/-- One iteration of the `while True` loop in `find_forced_digits`: the
`elif` chain tries the four rules in order and stops at the first that
reports progress; the returned flag says whether the iteration made
progress (`false` means the loop `break`s). -/
def onePass (g : Grid) : Except Grid (Grid × Bool) :=
  match find_naked_singles g with
  | .error ge => .error ge
  | .ok (g1, true) => .ok (g1, true)
  | .ok (g1, false) =>
    match find_forced_digits_in_rows g1 with
    | (g2, true) => .ok (g2, true)
    | (g2, false) =>
      match find_forced_digits_in_columns g2 with
      | (g3, true) => .ok (g3, true)
      | (g3, false) =>
        match find_forced_digits_in_boxes g3 with
        | (g4, true) => .ok (g4, true)
        | (g4, false) => .ok (g4, false)

/-- `Puzzle.find_forced_digits`, with a fuel parameter standing in for
the unbounded `while True` loop: `none` means the fuel ran out before
the loop converged or raised. -/
def find_forced_digits_fuel : Nat → Grid → Option (Except Grid Grid)
  | 0, _ => none
  | n + 1, g =>
    match onePass g with
    | .error ge => some (.error ge)
    | .ok (g', true) => find_forced_digits_fuel n g'
    | .ok (g', false) => some (.ok g')

/-- The outcome `Puzzle.solve` reports: normal return, or the
`"ERROR: solve terminated with invalid solution"` message printed by its
`except RuntimeError` handler. -/
inductive SolveReport : Type
  | success : SolveReport
  | reportedError : SolveReport
deriving DecidableEq

/-- `Puzzle.solve`: run `find_forced_digits` inside `try`; a
`RuntimeError` from a rule, or an invalid converged grid, is caught and
reported, and the method returns normally either way. -/
def solve (fuel : Nat) (g : Grid) : Option (Grid × SolveReport) :=
  match find_forced_digits_fuel fuel g with
  | none => none
  | some (.error ge) => some (ge, .reportedError)
  | some (.ok gf) =>
    if solution_is_valid gf then some (gf, .success) else some (gf, .reportedError)

/-! ### The file loader (`Puzzle.__init__`) -/

/-- Python `str.split(" ")`: split on every single space, keeping empty
pieces (`"".split(" ") == [""]`). -/
def splitSp : List Char → List (List Char)
  | [] => [[]]
  | ch :: rest =>
    match splitSp rest, ch with
    | groups, ' ' => [] :: groups
    | [], _ => [[ch]]
    | t :: ts, _ => (ch :: t) :: ts

/-- One step of decimal-digit accumulation for `pyInt`. -/
def parseNatAux : List Char → Nat → Option Nat
  | [], acc => some acc
  | ch :: rest, acc =>
    if '0' ≤ ch ∧ ch ≤ '9' then parseNatAux rest (10 * acc + (ch.toNat - '0'.toNat))
    else none

/-- The Python builtin `int(token)` as the loader uses it: an optional
sign followed by at least one decimal digit parses, anything else raises
`ValueError` (here `none`).  No range restriction is applied, exactly as
in the source. -/
def pyInt : List Char → Option Int
  | [] => none
  | '-' :: rest =>
    match rest with
    | [] => none
    | _ => (parseNatAux rest 0).map (fun n => -(n : Int))
  | '+' :: rest =>
    match rest with
    | [] => none
    | _ => (parseNatAux rest 0).map (fun n => (n : Int))
  | cs => (parseNatAux cs 0).map (fun n => (n : Int))

/-- The inner loop of `Puzzle.__init__`: `int(row_data[col])` for each
`col in range(0, 9)`; a missing token (`IndexError`) or an unparseable
token (`ValueError`) aborts construction. -/
def readRowCells (row_data : List (List Char)) : List Nat → Option (List Int)
  | [] => some []
  | col :: cols =>
    match row_data[col]? with
    | none => none
    | some tok =>
      match pyInt tok with
      | none => none
      | some v =>
        match readRowCells row_data cols with
        | none => none
        | some vs => some (v :: vs)

/-- One line of the puzzle file turned into nine cell values. -/
def lineToRow (line : List Char) : Option (List Int) :=
  readRowCells (splitSp line) (List.range 9)

/-- The outer loop of `Puzzle.__init__` over `row in range(0, 9)`;
`readline` past the end of the file returns the empty string, embedded
as `getD row []`. -/
def readRows (input_lines : List (List Char)) : List Nat → Option (List (List Int))
  | [] => some []
  | row :: rows =>
    match lineToRow (input_lines.getD row []) with
    | none => none
    | some cells =>
      match readRows input_lines rows with
      | none => none
      | some rest => some (cells :: rest)

/-- `Puzzle.__init__` restricted to its parsing work: the file contents
(as newline-stripped lines) either become the 9×9 table of parsed
integers or construction fails. -/
def puzzle_init (input_lines : List (List Char)) : Option (List (List Int)) :=
  readRows input_lines (List.range 9)

/-! ### Spec-level predicates -/

/-- Convergence of the driver: all four rules report no progress. -/
def noProgressAll (g : Grid) : Prop :=
  find_naked_singles g = .ok (g, false) ∧
  find_forced_digits_in_rows g = (g, false) ∧
  find_forced_digits_in_columns g = (g, false) ∧
  find_forced_digits_in_boxes g = (g, false)

/-- Every row, column and box contains every digit 1..9. -/
def allAreasContainAll (g : Grid) : Prop :=
  ∀ i : Fin 9, ∀ d ∈ digits19,
    (∃ c, g i c = d) ∧ (∃ r, g r i = d) ∧ (∃ p ∈ boxCells i, g p.1 p.2 = d)

/-- `ExistsUnique` is a plain `def`, so instance search does not see
through it; over a fintype it is decidable by its definition. -/
instance existsUniqueDecidable {α : Type} [Fintype α] [DecidableEq α]
    (p : α → Prop) [DecidablePred p] : Decidable (∃! x, p x) :=
  decidable_of_iff (∃ x, p x ∧ ∀ y, p y → y = x) Iff.rfl

/-- Every row, column and box contains every digit 1..9 exactly once. -/
abbrev exactlyOneEach (g : Grid) : Prop :=
  ∀ i : Fin 9, ∀ d ∈ digits19,
    (∃! c : Fin 9, g i c = d) ∧ (∃! r : Fin 9, g r i = d) ∧
    (∃! p : Fin 9 × Fin 9, p ∈ boxCells i ∧ g p.1 p.2 = d)

/-! ### Concrete grids used as witnesses and counterexamples -/

/-- A completely solved, valid grid. -/
def gSolved : Grid :=
  fun r c => (((3 * (r.val % 3) + r.val / 3 + c.val) % 9 + 1 : Nat) : Int)

/-- Cell (0,0) is empty but every digit is blocked: row 0 holds 1..8 and
column 0 holds 9, so `find_naked_singles` fails there immediately. -/
def gFail : Grid :=
  fun r c => if r.val = 0 then (c.val : Int) else if r.val = 1 ∧ c.val = 0 then 9 else 0

/-- Cell (0,0) is empty and 9 is its only allowed digit (row 0 holds
1..8): a naked single. -/
def gW1 : Grid :=
  fun r c => if r.val = 0 then (c.val : Int) else 0

/-- Row 0 is empty; the 5s at (1,0), (2,3), (3,6) and (6,7) close boxes
0 and 1 and columns 6 and 7, so 5 is forced into (0,8) by the row rule. -/
def gW2 : Grid :=
  fun r c =>
    if (r.val = 1 ∧ c.val = 0) ∨ (r.val = 2 ∧ c.val = 3)
       ∨ (r.val = 3 ∧ c.val = 6) ∨ (r.val = 6 ∧ c.val = 7) then 5 else 0

/-- The transpose of `gW2`: 5 is forced into (8,0) by the column rule. -/
def gW3 : Grid :=
  fun r c =>
    if (r.val = 0 ∧ c.val = 1) ∨ (r.val = 3 ∧ c.val = 2)
       ∨ (r.val = 6 ∧ c.val = 3) ∨ (r.val = 7 ∧ c.val = 6) then 5 else 0

/-- The 1s at (1,3), (2,6), (3,1) and (6,2) close rows 1, 2 and columns
1, 2 of the band of box 0, so 1 is forced into the empty cell (0,0) by
the box rule. -/
def gW4 : Grid :=
  fun r c =>
    if (r.val = 1 ∧ c.val = 3) ∨ (r.val = 2 ∧ c.val = 6)
       ∨ (r.val = 3 ∧ c.val = 1) ∨ (r.val = 6 ∧ c.val = 2) then 1 else 0

/-- Like `gW4` but cell (0,0) already holds 2: the unique candidate cell
of box 0 for digit 1 is occupied, yet the box rule still writes there. -/
def gBug : Grid :=
  fun r c =>
    if r.val = 0 ∧ c.val = 0 then 2
    else if (r.val = 1 ∧ c.val = 3) ∨ (r.val = 2 ∧ c.val = 6)
         ∨ (r.val = 3 ∧ c.val = 1) ∨ (r.val = 6 ∧ c.val = 2) then 1
    else 0

/-- Nine well-formed lines whose first token, `17`, is an out-of-range
digit. -/
def badLines : List (List Char) :=
  List.map String.toList
    ["17 0 0 0 0 0 0 0 0", "0 0 0 0 0 0 0 0 0", "0 0 0 0 0 0 0 0 0",
     "0 0 0 0 0 0 0 0 0", "0 0 0 0 0 0 0 0 0", "0 0 0 0 0 0 0 0 0",
     "0 0 0 0 0 0 0 0 0", "0 0 0 0 0 0 0 0 0", "0 0 0 0 0 0 0 0 0"]

/-- The table `Puzzle.__init__` builds from `badLines`. -/
def badTable : List (List Int) :=
  [17, 0, 0, 0, 0, 0, 0, 0, 0] :: List.replicate 8 (List.replicate 9 (0 : Int))

/-! ### Basic lemmas about areas and writes -/

theorem rowHas_iff (g : Grid) (r : Fin 9) (d : Int) :
    rowHas g r d = true ↔ ∃ c, g r c = d := by
  simp [rowHas, rowContents, List.mem_map, List.mem_finRange]

theorem colHas_iff (g : Grid) (c : Fin 9) (d : Int) :
    colHas g c d = true ↔ ∃ r, g r c = d := by
  simp [colHas, colContents, List.mem_map, List.mem_finRange]

theorem boxHas_iff (g : Grid) (b : Fin 9) (d : Int) :
    boxHas g b d = true ↔ ∃ p ∈ boxCells b, g p.1 p.2 = d := by
  simp [boxHas, boxContents, List.mem_map]

theorem write_self (g : Grid) (r c : Fin 9) (v : Int) : write g r c v r c = v := by
  simp [write]

theorem write_other (g : Grid) (r c : Fin 9) (v : Int) (r' c' : Fin 9)
    (h : ¬(r' = r ∧ c' = c)) : write g r c v r' c' = g r' c' := by
  simp only [write, if_neg h]

theorem digits19_ne_zero : ∀ d ∈ digits19, d ≠ 0 := by decide

theorem digitFin_mem : ∀ i : Fin 9, ((i.val : Int) + 1) ∈ digits19 := by decide

theorem cellsInOrder_nodup : cellsInOrder.Nodup := by decide

theorem digit_allowed_at_true {g : Grid} {d : Int} {r c : Fin 9}
    (h : digit_allowed_at g d r c = true) :
    rowHas g r d = false ∧ colHas g c d = false ∧
    boxHas g (get_box r c) d = false := by
  unfold digit_allowed_at at h
  split at h
  · cases h
  · split at h
    · cases h
    · refine ⟨by simp_all, by simp_all, by simp at h; exact h⟩

/-! ### The `valid_digits` accumulator -/

theorem collectGo_eq_take (g : Grid) (r c : Fin 9) (ds : List Int) :
    ∀ acc : List Int, acc.length ≤ 1 →
      collectGo g r c ds acc =
        acc ++ (ds.filter (fun d => digit_allowed_at g d r c)).take (2 - acc.length) := by
  induction ds with
  | nil => intro acc _; simp [collectGo]
  | cons d rest ih =>
    intro acc hacc
    by_cases hd : digit_allowed_at g d r c
    · simp only [collectGo, hd, if_true, List.filter_cons_of_pos]
      rcases Nat.le_one_iff_eq_zero_or_eq_one.mp hacc with h0 | h1
      · have hanil : acc = [] := List.length_eq_zero.mp h0
        subst hanil
        rw [if_neg (by simp), List.nil_append]
        rw [ih [d] (by simp)]
        simp [List.take]
      · rw [if_pos (by simp [h1])]
        have h2 : 2 - acc.length = 1 := by omega
        simp [h2, List.take]
    · have hd' : digit_allowed_at g d r c = false := by simpa using hd
      simp only [collectGo, hd', Bool.false_eq_true, if_false, List.filter_cons]
      exact ih acc hacc

theorem collectValid_eq (g : Grid) (r c : Fin 9) :
    collectValid g r c =
      (digits19.filter (fun d => digit_allowed_at g d r c)).take 2 := by
  unfold collectValid
  rw [collectGo_eq_take g r c digits19 [] (by simp)]
  simp

theorem take2_eq_nil {α : Type} {l : List α} : l.take 2 = [] ↔ l = [] := by
  cases l <;> simp

theorem take2_eq_singleton {α : Type} {l : List α} {d : α} :
    l.take 2 = [d] ↔ l = [d] := by
  cases l with
  | nil => simp
  | cons a t => cases t <;> simp [List.take]

theorem collectValid_nil_iff (g : Grid) (r c : Fin 9) :
    collectValid g r c = [] ↔
      digits19.filter (fun d => digit_allowed_at g d r c) = [] := by
  rw [collectValid_eq]; exact take2_eq_nil

theorem collectValid_singleton_iff (g : Grid) (r c : Fin 9) (d : Int) :
    collectValid g r c = [d] ↔
      digits19.filter (fun d => digit_allowed_at g d r c) = [d] := by
  rw [collectValid_eq]; exact take2_eq_singleton

theorem nsCell_eq_spec (g : Grid) (r c : Fin 9) : nsCell g r c = nsSpecCell g r c := by
  unfold nsCell nsSpecCell
  rw [collectValid_eq]
  rcases hf : digits19.filter (fun d => digit_allowed_at g d r c) with _ | ⟨d, _ | ⟨d2, t⟩⟩ <;> rfl

theorem nsCell_funext : nsCell = nsSpecCell := by
  funext g r c
  exact nsCell_eq_spec g r c

/-! ### Inversion lemmas for the naked-singles scan -/

theorem nsCell_ok_inv {g g' : Grid} {r c : Fin 9} {b : Bool}
    (h : nsCell g r c = .ok (g', b)) :
    (b = false ∧ g' = g) ∨
    (b = true ∧ ∃ d, collectValid g r c = [d] ∧ g r c = 0 ∧ g' = write g r c d) := by
  unfold nsCell at h
  split at h
  · split at h
    · next d heq =>
      simp only [Except.ok.injEq, Prod.mk.injEq] at h
      exact Or.inr ⟨h.2.symm, d, heq, by assumption, h.1.symm⟩
    · cases h
    · simp only [Except.ok.injEq, Prod.mk.injEq] at h
      exact Or.inl ⟨h.2.symm, h.1.symm⟩
  · simp only [Except.ok.injEq, Prod.mk.injEq] at h
    exact Or.inl ⟨h.2.symm, h.1.symm⟩

theorem nsCell_error_inv {g ge : Grid} {r c : Fin 9}
    (h : nsCell g r c = .error ge) :
    g r c = 0 ∧ collectValid g r c = [] ∧ ge = write g r c (-1) := by
  unfold nsCell at h
  split at h
  · split at h
    · cases h
    · next heq =>
      simp only [Except.error.injEq] at h
      exact ⟨by assumption, heq, h.symm⟩
    · cases h
  · cases h

theorem nsScan_cons (cell : Grid → Fin 9 → Fin 9 → Except Grid (Grid × Bool))
    (p : Fin 9 × Fin 9) (rest : List (Fin 9 × Fin 9)) (g : Grid) (f : Bool) :
    nsScan cell (p :: rest) g f =
      match cell g p.1 p.2 with
      | .error ge => .error ge
      | .ok (g', b) => nsScan cell rest g' (f || b) := rfl

theorem nsScan_ok_false :
    ∀ (l : List (Fin 9 × Fin 9)) (g : Grid) (f : Bool) (g' : Grid),
      nsScan nsCell l g f = .ok (g', false) → g' = g ∧ f = false := by
  intro l
  induction l with
  | nil =>
    intro g f g' h
    simp only [nsScan, Except.ok.injEq, Prod.mk.injEq] at h
    exact ⟨h.1.symm, h.2⟩
  | cons p rest ih =>
    intro g f g' h
    rw [nsScan_cons] at h
    split at h
    · cases h
    · next g1 b heq =>
      obtain ⟨h1, h2⟩ := ih g1 (f || b) g' h
      have hf : f = false ∧ b = false := by simpa using h2
      rcases nsCell_ok_inv heq with ⟨_, rfl⟩ | ⟨hb, _⟩
      · exact ⟨h1, hf.1⟩
      · rw [hf.2] at hb; cases hb

theorem nsScan_untouched :
    ∀ (l : List (Fin 9 × Fin 9)) (g : Grid) (f : Bool) (g' : Grid) (b : Bool),
      nsScan nsCell l g f = .ok (g', b) →
      ∀ r c : Fin 9, (r, c) ∉ l → g' r c = g r c := by
  intro l
  induction l with
  | nil =>
    intro g f g' b h r c _
    simp only [nsScan, Except.ok.injEq, Prod.mk.injEq] at h
    rw [h.1]
  | cons p rest ih =>
    intro g f g' b h r c hmem
    rw [nsScan_cons] at h
    split at h
    · cases h
    · next g1 b1 heq =>
      have hne : (r, c) ≠ p ∧ (r, c) ∉ rest := by
        constructor
        · intro hrc; exact hmem (hrc ▸ List.mem_cons_self p rest)
        · intro hrc; exact hmem (List.mem_cons_of_mem p hrc)
      have hstep : g1 r c = g r c := by
        rcases nsCell_ok_inv heq with ⟨_, rfl⟩ | ⟨_, d, _, _, rfl⟩
        · rfl
        · refine write_other g p.1 p.2 d r c ?_
          intro ⟨hr, hc⟩
          exact hne.1 (Prod.ext hr hc)
      rw [ih g1 (f || b1) g' b h r c hne.2, hstep]

theorem nsScan_true_changed :
    ∀ (l : List (Fin 9 × Fin 9)), l.Nodup →
      ∀ (g g' : Grid), nsScan nsCell l g false = .ok (g', true) →
        ∃ r c, g r c = 0 ∧ g' r c ≠ 0 := by
  intro l
  induction l with
  | nil =>
    intro _ g g' h
    simp [nsScan] at h
  | cons p rest ih =>
    intro hnd g g' h
    rw [nsScan_cons] at h
    split at h
    · cases h
    · next g1 b1 heq =>
      rcases nsCell_ok_inv heq with ⟨hb1, hg1⟩ | ⟨hb1, d, hcv, hz, hg1⟩
      · rw [hb1, hg1] at h
        exact ih (List.Nodup.of_cons hnd) g g' h
      · rw [hb1, hg1] at h
        refine ⟨p.1, p.2, hz, ?_⟩
        have hnr : (p.1, p.2) ∉ rest := by
          have := (List.nodup_cons.mp hnd).1
          simpa using this
        have hval : g' p.1 p.2 = d := by
          rw [nsScan_untouched rest (write g p.1 p.2 d) (false || true) g' true h
            p.1 p.2 hnr]
          exact write_self g p.1 p.2 d
        have hd9 : d ∈ digits19 := by
          have hf := (collectValid_singleton_iff g p.1 p.2 d).mp hcv
          have : d ∈ digits19.filter (fun x => digit_allowed_at g x p.1 p.2) := by
            rw [hf]; exact List.mem_singleton_self d
          exact (List.mem_filter.mp this).1
        rw [hval]
        exact digits19_ne_zero d hd9

theorem nsScan_error_decomp :
    ∀ (l : List (Fin 9 × Fin 9)) (g : Grid) (f : Bool) (ge : Grid),
      nsScan nsCell l g f = .error ge →
      ∃ (pre : List (Fin 9 × Fin 9)) (r c : Fin 9) (suf : List (Fin 9 × Fin 9))
          (g1 : Grid) (b : Bool),
        l = pre ++ (r, c) :: suf ∧
        nsScan nsCell pre g f = .ok (g1, b) ∧
        g1 r c = 0 ∧ collectValid g1 r c = [] ∧ ge = write g1 r c (-1) := by
  intro l
  induction l with
  | nil => intro g f ge h; cases h
  | cons p rest ih =>
    intro g f ge h
    rw [nsScan_cons] at h
    split at h
    · next ge' heq =>
      obtain ⟨hz, hcv, hw⟩ := nsCell_error_inv heq
      cases h
      exact ⟨[], p.1, p.2, rest, g, f, by rw [List.nil_append], rfl, hz, hcv, hw⟩
    · next g1 b1 heq =>
      obtain ⟨pre, r, c, suf, g2, b2, hl, hpre, hz, hcv, hw⟩ := ih g1 (f || b1) ge h
      refine ⟨p :: pre, r, c, suf, g2, b2, by rw [hl, List.cons_append], ?_, hz, hcv, hw⟩
      rw [nsScan_cons, heq]
      exact hpre

/-! ### Inversion lemmas for the three forced-digit rules -/

theorem frdRowDigit_inv (g : Grid) (row : Fin 9) (d : Int) :
    frdRowDigit g row d = (g, false) ∨
    (∃ col : Fin 9, frdRowDigit g row d = (write g row col d, true) ∧
      g row col = 0 ∧ rowHas g row d = false ∧ colHas g col d = false ∧
      boxHas g (get_box row col) d = false) := by
  simp only [frdRowDigit]
  split
  · exact Or.inl rfl
  · next hrow =>
    split
    · next col heq =>
      have hmem0 : col ∈ [col] := List.mem_singleton_self col
      rw [← heq] at hmem0
      obtain ⟨hopen, hncol⟩ := List.mem_filter.mp hmem0
      have hcolF : colHas g col d = false := by simpa using hncol
      obtain ⟨box, _, hcol2⟩ := List.mem_flatMap.mp hopen
      split at hcol2
      · simp at hcol2
      · next hb =>
        obtain ⟨num, _, hsome⟩ := List.mem_filterMap.mp hcol2
        split at hsome
        · next hz =>
          have hcol : col = ⟨num.val + box.val * 3, by have h1 := num.isLt; have h2 := box.isLt; omega⟩ := by
            injection hsome with h
            exact h.symm
          subst hcol
          have hgb : get_box row ⟨num.val + box.val * 3, by have h1 := num.isLt; have h2 := box.isLt; omega⟩ =
              ⟨box.val + 3 * (row.val / 3), by have h1 := row.isLt; have h2 := box.isLt; omega⟩ := by
            apply Fin.ext
            simp only [get_box]
            have h1 := num.isLt
            omega
          refine Or.inr ⟨_, rfl, hz, by simpa using hrow, hcolF, ?_⟩
          rw [hgb]
          simpa using hb
        · cases hsome
    · exact Or.inl rfl

theorem frdColDigit_inv (g : Grid) (col : Fin 9) (d : Int) :
    frdColDigit g col d = (g, false) ∨
    (∃ row : Fin 9, frdColDigit g col d = (write g row col d, true) ∧
      g row col = 0 ∧ rowHas g row d = false ∧ colHas g col d = false ∧
      boxHas g (get_box row col) d = false) := by
  simp only [frdColDigit]
  split
  · exact Or.inl rfl
  · next hcol =>
    split
    · next row heq =>
      have hmem0 : row ∈ [row] := List.mem_singleton_self row
      rw [← heq] at hmem0
      obtain ⟨hopen, hnrow⟩ := List.mem_filter.mp hmem0
      have hrowF : rowHas g row d = false := by simpa using hnrow
      obtain ⟨box, _, hrow2⟩ := List.mem_flatMap.mp hopen
      split at hrow2
      · simp at hrow2
      · next hb =>
        obtain ⟨num, _, hsome⟩ := List.mem_filterMap.mp hrow2
        split at hsome
        · next hz =>
          have hrow : row = ⟨num.val + 3 * box.val, by have h1 := num.isLt; have h2 := box.isLt; omega⟩ := by
            injection hsome with h
            exact h.symm
          subst hrow
          have hgb : get_box ⟨num.val + 3 * box.val, by have h1 := num.isLt; have h2 := box.isLt; omega⟩ col =
              ⟨3 * box.val + col.val / 3, by have h1 := col.isLt; have h2 := box.isLt; omega⟩ := by
            apply Fin.ext
            simp only [get_box]
            have h1 := num.isLt
            omega
          refine Or.inr ⟨_, rfl, hz, hrowF, by simpa using hcol, ?_⟩
          rw [hgb]
          simpa using hb
        · cases hsome
    · exact Or.inl rfl

theorem frdBoxDigit_inv (g : Grid) (box : Fin 9) (d : Int) :
    frdBoxDigit g box d = (g, false) ∨
    (boxHas g box d = false ∧ ∃ r c : Fin 9,
      frdBoxDigit g box d = (write g r c d, true) ∧ get_box r c = box ∧
      rowHas g r d = false ∧ colHas g c d = false ∧
      boxHas g (get_box r c) d = false) := by
  simp only [frdBoxDigit]
  split
  · exact Or.inl rfl
  · next hbox =>
    split
    · next p heq =>
      have hmem0 : p ∈ [p] := List.mem_singleton_self p
      rw [← heq] at hmem0
      obtain ⟨r, hr, hp2⟩ := List.mem_flatMap.mp hmem0
      obtain ⟨c, hcc, hpc⟩ := List.mem_map.mp hp2
      obtain ⟨i, _, hri⟩ := List.mem_filterMap.mp hr
      obtain ⟨j, _, hcj⟩ := List.mem_filterMap.mp hcc
      have hboxF : boxHas g box d = false := by simpa using hbox
      split at hri
      · cases hri
      · next hrF =>
        split at hcj
        · cases hcj
        · next hcF =>
          have hrval : r = ⟨3 * (box.val / 3) + i.val, by have h1 := box.isLt; have h2 := i.isLt; omega⟩ := by
            injection hri with h
            exact h.symm
          have hcval : c = ⟨3 * (box.val % 3) + j.val, by have h1 := box.isLt; have h2 := j.isLt; omega⟩ := by
            injection hcj with h
            exact h.symm
          subst hrval hcval
          have hgb : get_box ⟨3 * (box.val / 3) + i.val, by have h1 := box.isLt; have h2 := i.isLt; omega⟩
              ⟨3 * (box.val % 3) + j.val, by have h1 := box.isLt; have h2 := j.isLt; omega⟩ = box := by
            apply Fin.ext
            simp only [get_box]
            have h1 := box.isLt
            have h2 := i.isLt
            have h3 := j.isLt
            omega
          refine Or.inr ⟨hboxF, _, _, ?_, hgb, by simpa using hrF, by simpa using hcF, ?_⟩
          · rw [← hpc]
          · rw [hgb]
            exact hboxF
    · exact Or.inl rfl

/-! ### No-progress invocations leave the grid unchanged -/

theorem ruleGo_cons {α : Type} (step : Grid → α → Grid × Bool) (p : α) (rest : List α)
    (g : Grid) (f : Bool) :
    ruleGo step (p :: rest) g f = ruleGo step rest (step g p).1 (f || (step g p).2) := rfl

theorem ruleGo_false {α : Type} (step : Grid → α → Grid × Bool)
    (hstep : ∀ (g : Grid) (p : α), (step g p).2 = false → (step g p).1 = g) :
    ∀ (l : List α) (g : Grid) (f : Bool) (g' : Grid),
      ruleGo step l g f = (g', false) → g' = g ∧ f = false := by
  intro l
  induction l with
  | nil =>
    intro g f g' h
    simp only [ruleGo, Prod.mk.injEq] at h
    exact ⟨h.1.symm, h.2⟩
  | cons p rest ih =>
    intro g f g' h
    rw [ruleGo_cons] at h
    obtain ⟨h1, h2⟩ := ih (step g p).1 (f || (step g p).2) g' h
    have hf : f = false ∧ (step g p).2 = false := by simpa using h2
    exact ⟨h1.trans (hstep g p hf.2), hf.1⟩

theorem frdRowDigit_snd_false {g : Grid} {row : Fin 9} {d : Int}
    (h : (frdRowDigit g row d).2 = false) : (frdRowDigit g row d).1 = g := by
  rcases frdRowDigit_inv g row d with heq | ⟨col, heq, _⟩
  · rw [heq]
  · rw [heq] at h
    cases h

theorem frdColDigit_snd_false {g : Grid} {col : Fin 9} {d : Int}
    (h : (frdColDigit g col d).2 = false) : (frdColDigit g col d).1 = g := by
  rcases frdColDigit_inv g col d with heq | ⟨row, heq, _⟩
  · rw [heq]
  · rw [heq] at h
    cases h

theorem frdBoxDigit_snd_false {g : Grid} {box : Fin 9} {d : Int}
    (h : (frdBoxDigit g box d).2 = false) : (frdBoxDigit g box d).1 = g := by
  rcases frdBoxDigit_inv g box d with heq | ⟨_, r, c, heq, _⟩
  · rw [heq]
  · rw [heq] at h
    cases h

theorem find_forced_digits_in_rows_false {g g' : Grid}
    (h : find_forced_digits_in_rows g = (g', false)) : g' = g :=
  (ruleGo_false _ (fun _ _ hp => frdRowDigit_snd_false hp) areaDigitPairs g false g' h).1

theorem find_forced_digits_in_columns_false {g g' : Grid}
    (h : find_forced_digits_in_columns g = (g', false)) : g' = g :=
  (ruleGo_false _ (fun _ _ hp => frdColDigit_snd_false hp) areaDigitPairs g false g' h).1

theorem find_forced_digits_in_boxes_false {g g' : Grid}
    (h : find_forced_digits_in_boxes g = (g', false)) : g' = g :=
  (ruleGo_false _ (fun _ _ hp => frdBoxDigit_snd_false hp) areaDigitPairs g false g' h).1

theorem find_naked_singles_false {g g' : Grid}
    (h : find_naked_singles g = .ok (g', false)) : g' = g :=
  (nsScan_ok_false cellsInOrder g false g' h).1

/-! ### Top-level facts about the naked-singles rule -/

theorem find_naked_singles_eq_spec (g : Grid) :
    find_naked_singles g = find_naked_singles_spec g := by
  unfold find_naked_singles find_naked_singles_spec
  rw [nsCell_funext]

theorem find_naked_singles_flag_iff {g g' : Grid} {b : Bool}
    (h : find_naked_singles g = .ok (g', b)) : b = true ↔ g' ≠ g := by
  constructor
  · intro hb
    subst hb
    obtain ⟨r, c, hz, hnz⟩ := nsScan_true_changed cellsInOrder cellsInOrder_nodup g g' h
    intro he
    rw [he] at hnz
    exact hnz hz
  · intro hne
    by_contra hb
    have hb' : b = false := by simpa using hb
    subst hb'
    exact hne (find_naked_singles_false h)

/-! ### The sequential driver -/

theorem onePass_ok_false {g g' : Grid} (h : onePass g = .ok (g', false)) :
    g' = g ∧ noProgressAll g := by
  unfold onePass at h
  split at h
  · cases h
  · simp at h
  · next g1 heq1 =>
    split at h
    · simp at h
    · next g2 heq2 =>
      split at h
      · simp at h
      · next g3 heq3 =>
        split at h
        · simp at h
        · next g4 heq4 =>
          have h4 : g' = g4 := by simpa using h.symm
          have e1 : g1 = g := find_naked_singles_false heq1
          subst e1
          have e2 : g2 = g1 := find_forced_digits_in_rows_false heq2
          subst e2
          have e3 : g3 = g2 := find_forced_digits_in_columns_false heq3
          subst e3
          have e4 : g4 = g3 := find_forced_digits_in_boxes_false heq4
          subst e4
          subst h4
          exact ⟨rfl, heq1, heq2, heq3, heq4⟩

theorem onePass_of_noProgress {g : Grid} (h : noProgressAll g) :
    onePass g = .ok (g, false) := by
  obtain ⟨h1, h2, h3, h4⟩ := h
  unfold onePass
  simp only [h1, h2, h3, h4]

theorem fuel_ok_noProgress :
    ∀ (n : Nat) (g gfin : Grid),
      find_forced_digits_fuel n g = some (.ok gfin) → noProgressAll gfin := by
  intro n
  induction n with
  | zero => intro g gfin h; cases h
  | succ n ih =>
    intro g gfin h
    unfold find_forced_digits_fuel at h
    split at h
    · simp at h
    · exact ih _ _ h
    · next g' heq =>
      have hg : g' = gfin := by simpa using h
      subst hg
      obtain ⟨he, hnp⟩ := onePass_ok_false heq
      rw [he]
      exact hnp

theorem fuel_noProgress_stops {g : Grid} (h : noProgressAll g) :
    ∀ n : Nat, 0 < n → find_forced_digits_fuel n g = some (.ok g) := by
  intro n hn
  cases n with
  | zero => cases hn
  | succ n =>
    unfold find_forced_digits_fuel
    rw [onePass_of_noProgress h]

theorem onePass_error_inv {g ge : Grid} (h : onePass g = .error ge) :
    find_naked_singles g = .error ge := by
  unfold onePass at h
  split at h
  · next ge' heq =>
    have : ge' = ge := by simpa using h
    subst this
    exact heq
  · simp at h
  · split at h
    · simp at h
    · split at h
      · simp at h
      · split at h
        · simp at h
        · simp at h

theorem fuel_error_marker :
    ∀ (n : Nat) (g ge : Grid),
      find_forced_digits_fuel n g = some (.error ge) → ∃ r c, ge r c = -1 := by
  intro n
  induction n with
  | zero => intro g ge h; cases h
  | succ n ih =>
    intro g ge h
    unfold find_forced_digits_fuel at h
    split at h
    · next ge' heq =>
      have hg : ge' = ge := by simpa using h
      subst hg
      have hns := onePass_error_inv heq
      obtain ⟨pre, r, c, suf, g1, b, _, _, _, _, hw⟩ :=
        nsScan_error_decomp cellsInOrder g false ge' hns
      exact ⟨r, c, by rw [hw]; exact write_self g1 r c (-1)⟩
    · exact ih _ _ h
    · simp at h

/-! ### The validator -/

theorem solution_is_valid_iff (g : Grid) :
    solution_is_valid g = true ↔ allAreasContainAll g := by
  simp [solution_is_valid, allAreasContainAll, List.all_eq_true,
    rowHas_iff, colHas_iff, boxHas_iff, and_assoc]

theorem row_cover {g : Grid} {r : Fin 9}
    (h : ∀ i : Fin 9, ∃ c, g r c = (i.val : Int) + 1) :
    ∀ c, ∃ i : Fin 9, g r c = (i.val : Int) + 1 := by
  classical
  choose f hf using h
  have hinj : Function.Injective f := by
    intro i j hij
    have hvi := hf i
    have hvj := hf j
    rw [hij] at hvi
    have hv : (i.val : Int) + 1 = (j.val : Int) + 1 := by rw [← hvi, ← hvj]
    have hvn : i.val = j.val := by omega
    exact Fin.ext hvn
  have hsurj : Function.Surjective f := Finite.injective_iff_surjective.mp hinj
  intro c
  obtain ⟨i, hi⟩ := hsurj c
  exact ⟨i, by rw [← hi]; exact hf i⟩

theorem valid_no_marker {g : Grid} (h : solution_is_valid g = true) :
    ∀ r c, g r c ≠ 0 ∧ g r c ≠ -1 := by
  intro r c
  have hall := (solution_is_valid_iff g).mp h
  have hrow : ∀ i : Fin 9, ∃ c2, g r c2 = (i.val : Int) + 1 :=
    fun i => (hall r _ (digitFin_mem i)).1
  obtain ⟨i, hi⟩ := row_cover hrow c
  constructor <;> (rw [hi]; omega)

theorem exactlyOne_valid {g : Grid} (h : exactlyOneEach g) :
    solution_is_valid g = true := by
  rw [solution_is_valid_iff]
  intro i d hd
  obtain ⟨h1, h2, h3⟩ := h i d hd
  exact ⟨h1.exists, h2.exists, h3.exists⟩

theorem mutation_invalidates {g : Grid} (hx : exactlyOneEach g)
    (r c : Fin 9) (v' : Int) (hne : v' ≠ g r c) :
    solution_is_valid (write g r c v') = false := by
  classical
  have hv := exactlyOne_valid hx
  have hall := (solution_is_valid_iff g).mp hv
  have hrow : ∀ i : Fin 9, ∃ c2, g r c2 = (i.val : Int) + 1 :=
    fun i => (hall r _ (digitFin_mem i)).1
  obtain ⟨i, hi⟩ := row_cover hrow c
  obtain ⟨hu1, _, _⟩ := hx r ((i.val : Int) + 1) (digitFin_mem i)
  by_contra hbad
  have htrue : solution_is_valid (write g r c v') = true := by
    cases hsv : solution_is_valid (write g r c v')
    · exact absurd hsv hbad
    · rfl
  have hall2 := (solution_is_valid_iff _).mp htrue
  obtain ⟨c2, hc2⟩ := (hall2 r _ (digitFin_mem i)).1
  by_cases hcc : c2 = c
  · subst hcc
    rw [write_self] at hc2
    exact hne (by rw [hc2, hi])
  · rw [write_other g r c v' r c2 (by intro hx2; exact hcc hx2.2)] at hc2
    have hceq : c2 = c := by
      obtain ⟨cu, _, huniq⟩ := hu1
      have e1 := huniq c2 hc2
      have e2 := huniq c hi
      rw [e1, e2]
    exact hcc hceq

/-! ### Per-placement soundness of the naked-single step -/

theorem nsCell_place_sound {g g' : Grid} {r c : Fin 9}
    (h : nsCell g r c = .ok (g', true)) :
    ∃ d, d ∈ digits19 ∧ g' = write g r c d ∧ g r c = 0 ∧
      rowHas g r d = false ∧ colHas g c d = false ∧
      boxHas g (get_box r c) d = false := by
  rcases nsCell_ok_inv h with ⟨hb, _⟩ | ⟨_, d, hcv, hz, hw⟩
  · cases hb
  · have hf := (collectValid_singleton_iff g r c d).mp hcv
    have hdmem : d ∈ digits19.filter (fun x => digit_allowed_at g x r c) := by
      rw [hf]
      exact List.mem_singleton_self d
    obtain ⟨hd19, hda⟩ := List.mem_filter.mp hdmem
    obtain ⟨ha, hb2, hc2⟩ := digit_allowed_at_true (show digit_allowed_at g d r c = true by simpa using hda)
    exact ⟨d, hd19, hw, hz, ha, hb2, hc2⟩

/-! ### Loader lemmas -/

theorem readRowCells_none :
    ∀ (cols : List Nat) (row_data : List (List Char)) (col : Nat),
      col ∈ cols → (row_data[col]?).bind pyInt = none →
      readRowCells row_data cols = none := by
  intro cols
  induction cols with
  | nil =>
    intro row_data col hmem _
    cases hmem
  | cons c cs ih =>
    intro row_data col hmem hn
    rcases List.mem_cons.mp hmem with rfl | hmem2
    · unfold readRowCells
      rcases hrd : row_data[col]? with _ | tok
      · rfl
      · have hpi : pyInt tok = none := by
          rw [hrd] at hn
          simpa using hn
        simp only [hpi]
    · unfold readRowCells
      rcases hrd : row_data[c]? with _ | tok
      · rfl
      · rcases hpi : pyInt tok with _ | v
        · simp only [hpi]
        · simp only [hpi, ih row_data col hmem2 hn]

theorem readRows_none :
    ∀ (rows : List Nat) (input_lines : List (List Char)) (row : Nat),
      row ∈ rows → lineToRow (input_lines.getD row []) = none →
      readRows input_lines rows = none := by
  intro rows
  induction rows with
  | nil =>
    intro input_lines row hmem _
    cases hmem
  | cons c cs ih =>
    intro input_lines row hmem hn
    rcases List.mem_cons.mp hmem with rfl | hmem2
    · unfold readRows
      rw [hn]
    · unfold readRows
      rcases hlr : lineToRow (input_lines.getD c []) with _ | cells
      · rfl
      · simp only [ih input_lines row hmem2 hn]

/-! ### The claims -/

/-- C1: the claim says every rule only writes into cells that were 0 (or
writes -1 once on failure), but `find_forced_digits_in_boxes` builds its
candidate cells without checking that they are empty: on `gBug`, whose
cell (0,0) holds 2, the box rule reports progress and overwrites (0,0)
with 1. -/
theorem claim_C1_boxes_overwrite :
    gBug 0 0 = 2 ∧ (find_forced_digits_in_boxes gBug).2 = true ∧
    (find_forced_digits_in_boxes gBug).1 0 0 = 1 :=
  ⟨rfl, rfl, rfl⟩

/-- C2: `find_naked_singles` scans cells in row-major order and behaves
on each empty cell exactly as the spec words it (the code's early-exit
`valid_digits` accumulator agrees with the full filtered candidate
list), and on a normal return its flag is true iff the grid changed,
i.e. iff at least one 0-to-digit placement occurred. -/
theorem claim_C2 :
    (∀ g : Grid, find_naked_singles g = find_naked_singles_spec g) ∧
    (∀ (g g' : Grid) (b : Bool), find_naked_singles g = .ok (g', b) →
      (b = true ↔ g' ≠ g)) :=
  ⟨find_naked_singles_eq_spec, fun _ _ _ h => find_naked_singles_flag_iff h⟩

theorem claim_C2_witness :
    find_naked_singles gSolved = .ok (gSolved, false) ∧
    (false = true ↔ gSolved ≠ gSolved) :=
  ⟨rfl, claim_C2.2 gSolved gSolved false rfl⟩

/-- C3: the driver `find_forced_digits` (here with fuel standing in for
the unbounded loop) converges normally exactly at grids on which all
four rules, run in order, make zero placements: any normally returned
grid satisfies `noProgressAll`, and from a `noProgressAll` grid the very
first pass stops and returns the grid unchanged. -/
theorem claim_C3 :
    ∀ (n : Nat) (g gfin : Grid),
      (find_forced_digits_fuel n g = some (.ok gfin) → noProgressAll gfin) ∧
      (noProgressAll g → 0 < n → find_forced_digits_fuel n g = some (.ok g)) :=
  fun n g gfin =>
    ⟨fuel_ok_noProgress n g gfin, fun h hn => fuel_noProgress_stops h n hn⟩

theorem claim_C3_witness :
    find_forced_digits_fuel 1 gSolved = some (.ok gSolved) ∧ noProgressAll gSolved :=
  ⟨(claim_C3 1 gSolved gSolved).2 ⟨rfl, rfl, rfl, rfl⟩ Nat.one_pos,
   (claim_C3 1 gSolved gSolved).1 rfl⟩

/-- C4: whenever `find_forced_digits` finishes (raises or converges),
`solve` returns normally with a reported outcome: a mid-solve
`RuntimeError` is caught, leaves the grid in its state at the raise
(which contains the -1 marker), and is reported; an invalid fixed point
is likewise reported with the grid left as converged; a valid fixed
point is a success. -/
theorem claim_C4 :
    ∀ (n : Nat) (g : Grid) (res : Except Grid Grid),
      find_forced_digits_fuel n g = some res →
      ∃ (g' : Grid) (rep : SolveReport), solve n g = some (g', rep) ∧
        ((∃ ge, res = .error ge ∧ g' = ge ∧ rep = .reportedError ∧
            ∃ r c, g' r c = -1) ∨
         (∃ gf, res = .ok gf ∧ g' = gf ∧
            (rep = .success ↔ solution_is_valid gf = true))) := by
  intro n g res h
  unfold solve
  rw [h]
  cases res with
  | error ge =>
    exact ⟨ge, .reportedError, rfl,
      Or.inl ⟨ge, rfl, rfl, rfl, fuel_error_marker n g ge h⟩⟩
  | ok gf =>
    by_cases hv : solution_is_valid gf = true
    · refine ⟨gf, .success, by simp [hv], Or.inr ⟨gf, rfl, rfl, ?_⟩⟩
      exact ⟨fun _ => hv, fun _ => rfl⟩
    · refine ⟨gf, .reportedError, by simp [hv], Or.inr ⟨gf, rfl, rfl, ?_⟩⟩
      constructor
      · intro hre
        cases hre
      · intro hv2
        exact absurd hv2 hv

theorem claim_C4_witness :
    ∃ (g' : Grid) (rep : SolveReport), solve 1 gFail = some (g', rep) ∧
      ((∃ ge, (Except.error (write gFail 0 0 (-1)) : Except Grid Grid) = .error ge ∧
          g' = ge ∧ rep = .reportedError ∧ ∃ r c, g' r c = -1) ∨
       (∃ gf, (Except.error (write gFail 0 0 (-1)) : Except Grid Grid) = .ok gf ∧
          g' = gf ∧ (rep = .success ↔ solution_is_valid gf = true))) :=
  claim_C4 1 gFail (.error (write gFail 0 0 (-1))) rfl

/-- C5: `solution_is_valid` is true iff every row, column and box
contains every digit 1..9; it is true on a grid holding each digit
exactly once per row, column and box; whenever it is true no cell is 0
or -1; and changing any one cell of an exactly-once grid to a different
value that duplicates an entry of its row, column or box makes it
false. -/
theorem claim_C5 :
    ∀ g : Grid,
      (solution_is_valid g = true ↔ allAreasContainAll g) ∧
      (solution_is_valid g = true → ∀ r c, g r c ≠ 0 ∧ g r c ≠ -1) ∧
      (exactlyOneEach g → solution_is_valid g = true) ∧
      (exactlyOneEach g → ∀ (r c : Fin 9) (v' : Int), v' ≠ g r c →
        ((∃ c2, c2 ≠ c ∧ g r c2 = v') ∨ (∃ r2, r2 ≠ r ∧ g r2 c = v') ∨
         (∃ p ∈ boxCells (get_box r c), p ≠ (r, c) ∧ g p.1 p.2 = v')) →
        solution_is_valid (write g r c v') = false) :=
  fun g =>
    ⟨solution_is_valid_iff g,
     valid_no_marker,
     exactlyOne_valid,
     fun hx r c v' hne _ => mutation_invalidates hx r c v' hne⟩

set_option maxRecDepth 4000 in
theorem claim_C5_witness :
    gSolved 0 0 ≠ 0 ∧ solution_is_valid gSolved = true ∧
    solution_is_valid (write gSolved 0 0 2) = false :=
  ⟨((claim_C5 gSolved).2.1 (by decide) 0 0).1,
   (claim_C5 gSolved).2.2.1 (by decide),
   (claim_C5 gSolved).2.2.2 (by decide) 0 0 2 (by decide)
     (Or.inl ⟨1, by decide, by decide⟩)⟩

/-- C6 counterexample: the claim says an out-of-range token (integer not
in 0..9) makes puzzle construction fail, but the loader applies no range
check: the file `badLines`, whose first token is 17, loads successfully
into `badTable`, which records 17 in cell (0,0). -/
theorem claim_C6_cex :
    puzzle_init badLines = some badTable ∧
    badTable.getD 0 [] = [17, 0, 0, 0, 0, 0, 0, 0, 0] ∧ (9 : Int) < 17 :=
  ⟨rfl, rfl, by decide⟩

/-- C6 (amended): loading fails fast, before any solving, on a missing
or short line and on a non-integer token — any row whose line does not
yield nine parseable tokens aborts construction — but an out-of-range
integer token is accepted unchecked, as `badLines` shows. -/
theorem claim_C6_amended :
    (∀ (input_lines : List (List Char)) (row : Nat), row < 9 →
      lineToRow (input_lines.getD row []) = none → puzzle_init input_lines = none) ∧
    (∀ line : List Char, (splitSp line).length < 9 → lineToRow line = none) ∧
    (∀ (line : List Char) (col : Nat), col < 9 →
      ((splitSp line)[col]?).bind pyInt = none → lineToRow line = none) ∧
    puzzle_init badLines = some badTable := by
  refine ⟨?_, ?_, ?_, rfl⟩
  · intro input_lines row hrow h
    exact readRows_none (List.range 9) input_lines row (List.mem_range.mpr hrow) h
  · intro line h
    unfold lineToRow
    refine readRowCells_none (List.range 9) (splitSp line) (splitSp line).length
      (List.mem_range.mpr h) ?_
    rw [List.getElem?_eq_none (le_refl _)]
    rfl
  · intro line col hcol h
    exact readRowCells_none (List.range 9) (splitSp line) col (List.mem_range.mpr hcol) h

theorem claim_C6_amended_witness :
    puzzle_init [] = none ∧ lineToRow [] = none ∧ lineToRow ['a'] = none :=
  ⟨claim_C6_amended.1 [] 0 (by omega) rfl,
   claim_C6_amended.2.1 [] (by decide),
   claim_C6_amended.2.2.1 ['a'] 0 (by omega) rfl⟩

/-- C7: soundness of placements — whenever any of the four rules writes
a digit d into a cell, the grid immediately before the write has no d in
that cell's row, its column, or its box (stated on the per-cell /
per-(area,digit) step bodies, of which each full rule invocation is a
fold). -/
theorem claim_C7 :
    (∀ (g g' : Grid) (r c : Fin 9), nsCell g r c = .ok (g', true) →
      ∃ d, d ∈ digits19 ∧ g' = write g r c d ∧ g r c = 0 ∧
        rowHas g r d = false ∧ colHas g c d = false ∧
        boxHas g (get_box r c) d = false) ∧
    (∀ (g g' : Grid) (row : Fin 9) (d : Int), frdRowDigit g row d = (g', true) →
      ∃ col, g' = write g row col d ∧ g row col = 0 ∧ rowHas g row d = false ∧
        colHas g col d = false ∧ boxHas g (get_box row col) d = false) ∧
    (∀ (g g' : Grid) (col : Fin 9) (d : Int), frdColDigit g col d = (g', true) →
      ∃ row, g' = write g row col d ∧ g row col = 0 ∧ rowHas g row d = false ∧
        colHas g col d = false ∧ boxHas g (get_box row col) d = false) ∧
    (∀ (g g' : Grid) (box : Fin 9) (d : Int), frdBoxDigit g box d = (g', true) →
      boxHas g box d = false ∧ ∃ r c, g' = write g r c d ∧ get_box r c = box ∧
        rowHas g r d = false ∧ colHas g c d = false ∧
        boxHas g (get_box r c) d = false) := by
  refine ⟨?_, ?_, ?_, ?_⟩
  · intro g g' r c h
    exact nsCell_place_sound h
  · intro g g' row d h
    rcases frdRowDigit_inv g row d with heq | ⟨col, heq, h1, h2, h3, h4⟩
    · rw [h] at heq
      simp at heq
    · rw [h] at heq
      simp only [Prod.mk.injEq] at heq
      exact ⟨col, heq.1, h1, h2, h3, h4⟩
  · intro g g' col d h
    rcases frdColDigit_inv g col d with heq | ⟨row, heq, h1, h2, h3, h4⟩
    · rw [h] at heq
      simp at heq
    · rw [h] at heq
      simp only [Prod.mk.injEq] at heq
      exact ⟨row, heq.1, h1, h2, h3, h4⟩
  · intro g g' box d h
    rcases frdBoxDigit_inv g box d with heq | ⟨hb, r, c, heq, h1, h2, h3, h4⟩
    · rw [h] at heq
      simp at heq
    · rw [h] at heq
      simp only [Prod.mk.injEq] at heq
      exact ⟨hb, r, c, heq.1, h1, h2, h3, h4⟩

theorem claim_C7_witness :
    gW1 0 0 = 0 ∧ rowHas gW2 0 5 = false ∧ colHas gW3 0 5 = false ∧
    boxHas gW4 0 1 = false := by
  obtain ⟨d, _, _, h1, _⟩ := claim_C7.1 gW1 (write gW1 0 0 9) 0 0 rfl
  obtain ⟨col, _, _, h2, _⟩ := claim_C7.2.1 gW2 (write gW2 0 8 5) 0 5 rfl
  obtain ⟨row, _, _, _, h3, _⟩ := claim_C7.2.2.1 gW3 (write gW3 8 0 5) 0 5 rfl
  obtain ⟨h4, _⟩ := claim_C7.2.2.2 gW4 (write gW4 0 0 1) 0 1 rfl
  exact ⟨h1, h2, h3, h4⟩

/-- C8: `get_box(row, col)` is `3·⌊row/3⌋ + ⌊col/3⌋`, the cell (row,
col) lies inside the 3×3 block covered by the box of that index, and in
particular `get_box 4 7 = 5`. -/
theorem claim_C8 :
    (∀ row col : Fin 9, (get_box row col).val = 3 * (row.val / 3) + col.val / 3) ∧
    (∀ row col : Fin 9, (row, col) ∈ boxCells (get_box row col)) ∧
    get_box 4 7 = 5 := by
  refine ⟨fun row col => rfl, ?_, by decide⟩
  decide

/-- C10: failure of `find_naked_singles` is not atomic — the scan order
splits at the failing cell: the error grid is exactly the grid produced
by scanning the preceding cells (so their placements persist), with -1
written into the failing empty cell (which had no allowed digit), and no
cell after the failing one in row-major order is written. -/
theorem claim_C10 :
    ∀ (g ge : Grid), find_naked_singles g = .error ge →
      ∃ (pre : List (Fin 9 × Fin 9)) (r c : Fin 9) (suf : List (Fin 9 × Fin 9))
          (g1 : Grid) (b : Bool),
        cellsInOrder = pre ++ (r, c) :: suf ∧
        nsScan nsCell pre g false = .ok (g1, b) ∧
        g1 r c = 0 ∧ collectValid g1 r c = [] ∧
        ge = write g1 r c (-1) ∧
        ∀ p ∈ suf, ge p.1 p.2 = g1 p.1 p.2 := by
  intro g ge h
  obtain ⟨pre, r, c, suf, g1, b, hl, hpre, hz, hcv, hw⟩ :=
    nsScan_error_decomp cellsInOrder g false ge h
  refine ⟨pre, r, c, suf, g1, b, hl, hpre, hz, hcv, hw, ?_⟩
  intro p hp
  rw [hw]
  refine write_other g1 r c (-1) p.1 p.2 ?_
  intro hrc
  have hnd := cellsInOrder_nodup
  rw [hl] at hnd
  have hmem : (r, c) ∈ suf := by
    rw [← hrc.1, ← hrc.2]
    simpa using hp
  exact (List.nodup_cons.mp hnd.of_append_right).1 hmem

theorem claim_C10_witness : cellsInOrder ≠ [] := by
  obtain ⟨pre, r, c, suf, g1, b, hl, -, -, -, -, -⟩ :=
    claim_C10 gFail (write gFail 0 0 (-1)) rfl
  intro hnil
  rw [hnil] at hl
  simp at hl

end Sudoku
